import Mathlib

/-!
Verification of the hint-selection and session-progression engine of the
word-guessing puzzle repository.  The TypeScript sources are shallowly
embedded: JavaScript numbers become exact reals (`ℝ`), fallible code
(JS exceptions) returns `Except String`, arrays become lists, and the
`Map` built by the `PuzzleManager` constructor becomes a lookup function
with last-write-wins semantics.  `Math.sin`/`Math.sqrt` are embedded as
`Real.sin`/`Real.sqrt`, which forces several definitions to be
noncomputable; concrete evaluations are carried out by `simp`/`norm_num`.
-/

/-- `PuzzleData` from `src/client/puzzle.ts`: the vocabulary and the
index-aligned embedding vectors. -/
structure PuzzleData where
  hint_vocabulary : List String
  hint_embeddings : List (List ℝ)

/-- `GameState` from `src/client/puzzle.ts`. `solved?` (optional boolean)
is modelled as a `Bool` defaulting to `false`. -/
structure GameState where
  targetWord : String
  targetEmbedding : List ℝ
  guessesHistory : List String
  usedHints : List String
  solved : Bool := false

/-- Sum of coordinatewise products of a zipped vector list (the
`dotProduct` accumulator of `cosineDistance`). -/
def dotList (a b : List ℝ) : ℝ := ((a.zip b).map fun p => p.1 * p.2).sum

/-- Sum of squares of a vector (the `magA`/`magB` accumulators of
`cosineDistance` before the square root). -/
def sumSq (a : List ℝ) : ℝ := (a.map fun x => x * x).sum

/-- Euclidean magnitude: `Math.sqrt` of the sum of squares. -/
noncomputable def magnitude (a : List ℝ) : ℝ := Real.sqrt (sumSq a)

/-- The value computed by `cosineDistance` once the length guard has
passed: `1` if either magnitude is zero, else `1 - dot/(|a||b|)`. -/
noncomputable def cosineDistanceFn (a b : List ℝ) : ℝ :=
  if magnitude a = 0 ∨ magnitude b = 0 then 1
  else 1 - dotList a b / (magnitude a * magnitude b)

/-- `cosineDistance` from `src/client/puzzle.ts`.  The JS function throws
when the lengths differ; this is the `Except.error` case. -/
noncomputable def cosineDistance (a b : List ℝ) : Except String ℝ :=
  if a.length ≠ b.length then Except.error "Vectors must have the same length"
  else Except.ok (cosineDistanceFn a b)


/-- The i-th value of the seeded pseudo-random generator inside
`shuffleWithSeed`: `frac(sin(i) * 10000)`.  Note that the seed string
plays no role in the stream. -/
noncomputable def seededRandom (i : ℕ) : ℝ := Int.fract (Real.sin i * 10000)

/-- Swap two positions of a list (the three-assignment swap in the
Fisher-Yates loop; both indices are in bounds whenever the loop runs). -/
def swapList {α : Type} (l : List α) (i j : ℕ) : List α :=
  match l[i]?, l[j]? with
  | some x, some y => (l.set i y).set j x
  | _, _ => l

/-- The `while (m)` loop of `shuffleWithSeed`: with `m + 1` positions
remaining (out of `n` total), draw `j = ⌊random() * (m+1)⌋` using stream
index `n - (m+1)`, then swap positions `m` and `j`. -/
noncomputable def shuffleGo {α : Type} (n : ℕ) : List α → ℕ → List α
  | l, 0 => l
  | l, m + 1 =>
    shuffleGo n (swapList l m (⌊seededRandom (n - (m + 1)) * ((m + 1 : ℕ) : ℝ)⌋).toNat) m

/-- `shuffleWithSeed` from `src/client/puzzle.ts`: a Fisher-Yates shuffle
whose random stream is `frac(sin(i) * 10000)`.  The `seed` parameter is
received but never read by the loop body. -/
noncomputable def shuffleWithSeed {α : Type} (l : List α) (seed : String) : List α :=
  shuffleGo l.length l l.length

/-- The shuffled vocabulary built once by the `PuzzleManager`
constructor, with the fixed seed constant. -/
noncomputable def shuffledVocabulary (pd : PuzzleData) : List String :=
  shuffleWithSeed pd.hint_vocabulary "devvit-rocks"

/-- Target-word assignment in the `/api/puzzle/hint` route: counter value
`k` selects the shuffled vocabulary at index `k mod length`. -/
noncomputable def targetWordForCounter (pd : PuzzleData) (k : ℕ) : Option String :=
  (shuffledVocabulary pd)[k % (shuffledVocabulary pd).length]?

/-- The `PuzzleManager` class: its only data is the payload captured at
construction (the embedding map and shuffled vocabulary are derived
deterministically from it by the functions above). -/
structure PuzzleManager where
  puzzleData : PuzzleData

/-- `PuzzleManager.getInstance`: the static-singleton accessor.  The
process-wide static field is modelled as an explicit `Option
PuzzleManager` threaded in and out. -/
def getInstance (inst : Option PuzzleManager) (pd : PuzzleData) :
    PuzzleManager × Option PuzzleManager :=
  match inst with
  | none => ({ puzzleData := pd }, some { puzzleData := pd })
  | some pm => (pm, some pm)

/-- `getPuzzleManager` is a bare wrapper around `getInstance`. -/
def getPuzzleManager (inst : Option PuzzleManager) (pd : PuzzleData) :
    PuzzleManager × Option PuzzleManager :=
  getInstance inst pd

/-- Run a sequence of `getPuzzleManager` calls, collecting the returned
managers and threading the static field. -/
def runGetInstance (inst : Option PuzzleManager) :
    List PuzzleData → List PuzzleManager × Option PuzzleManager
  | [] => ([], inst)
  | pd :: rest =>
    let r := getPuzzleManager inst pd
    let rs := runGetInstance r.2 rest
    (r.1 :: rs.1, rs.2)

/-- `getEmbedding`: lookup in the `wordToEmbedding` map built by the
`PuzzleManager` constructor.  The constructor walks the vocabulary in
index order and calls `map.set(word, embedding)` whenever both the word
(a non-empty string) and the embedding slot are present, so a later
duplicate word overwrites an earlier one (last write wins). -/
def getEmbedding (pd : PuzzleData) (w : String) : Option (List ℝ) :=
  (List.range pd.hint_vocabulary.length).foldl
    (fun acc i =>
      match pd.hint_vocabulary[i]?, pd.hint_embeddings[i]? with
      | some word, some emb => if word ≠ "" ∧ word = w then some emb else acc
      | _, _ => acc)
    none

/-- JS `s.includes(t)`: `t` occurs contiguously in `s`. -/
def jsIncludes (s t : String) : Bool := occursIn t.data s.data
where occursIn : List Char → List Char → Bool
  | t, [] => t.isEmpty
  | t, c :: rest => t.isPrefixOf (c :: rest) || occursIn t rest

/-- The identity/history exclusions of `findHint`: the candidate equals
the target or was already guessed or already shown as a hint. -/
def basicExcluded (hintWord : String) (gs : GameState) : Prop :=
  hintWord = gs.targetWord ∨ hintWord ∈ gs.guessesHistory ∨ hintWord ∈ gs.usedHints

instance (hintWord : String) (gs : GameState) : Decidable (basicExcluded hintWord gs) := by
  unfold basicExcluded; infer_instance

/-- The `wordsToCheck` array of `findHint`. -/
def wordsToCheck (gs : GameState) : List String :=
  gs.targetWord :: (gs.guessesHistory ++ gs.usedHints)

/-- The substring-collision exclusion of `findHint`: some word to check
either is contained in the candidate (and has length ≥ 3) or contains
the candidate (which has length ≥ 3). -/
def substrExcluded (hintWord : String) (gs : GameState) : Prop :=
  ∃ w ∈ wordsToCheck gs,
    (3 ≤ w.length ∧ jsIncludes hintWord w = true) ∨
    (3 ≤ hintWord.length ∧ jsIncludes w hintWord = true)

instance (hintWord : String) (gs : GameState) : Decidable (substrExcluded hintWord gs) := by
  unfold substrExcluded; infer_instance

/-- The `collinearityScores` array of `findHint`: for every embedding in
table order, the distance to the guess plus the distance to the target.
A thrown distance error aborts the whole `map`. -/
noncomputable def computeScores (guessEmb targetEmb : List ℝ) :
    List (List ℝ) → Except String (List ℝ)
  | [] => Except.ok []
  | he :: rest =>
    match cosineDistance guessEmb he with
    | Except.error e => Except.error e
    | Except.ok guessDist =>
      match cosineDistance targetEmb he with
      | Except.error e => Except.error e
      | Except.ok targetDist =>
        match computeScores guessEmb targetEmb rest with
        | Except.error e => Except.error e
        | Except.ok others => Except.ok ((guessDist + targetDist) :: others)

/-- The `distancesFromGuesses` array computed for one candidate. -/
noncomputable def distancesList : List (List ℝ) → List ℝ → Except String (List ℝ)
  | [], _ => Except.ok []
  | g :: rest, he =>
    match cosineDistance g he with
    | Except.error e => Except.error e
    | Except.ok d =>
      match distancesList rest he with
      | Except.error e => Except.error e
      | Except.ok ds => Except.ok (d :: ds)

/-- The `sortedIndices` ranking of `findHint`: all score indices sorted
by ascending score.  `Array.prototype.sort` is stable with a consistent
comparator, which a merge sort by `score a ≤ score b` realises. -/
noncomputable def rankIndices (scores : List ℝ) : List ℕ :=
  (List.range scores.length).mergeSort fun a b =>
    decide (scores.getD a 0 ≤ scores.getD b 0)

/-- The first (distance-constrained) candidate loop of `findHint`. -/
noncomputable def findHintPass1 (pd : PuzzleData) (gs : GameState)
    (allGE : List (List ℝ)) (minT minG : ℝ) :
    List ℕ → Except String (Option String)
  | [] => Except.ok none
  | idx :: rest =>
    match pd.hint_vocabulary[idx]?, pd.hint_embeddings[idx]? with
    | some hintWord, some hintEmbedding =>
      if hintWord = "" then findHintPass1 pd gs allGE minT minG rest
      else if basicExcluded hintWord gs then findHintPass1 pd gs allGE minT minG rest
      else if substrExcluded hintWord gs then findHintPass1 pd gs allGE minT minG rest
      else
        match cosineDistance gs.targetEmbedding hintEmbedding with
        | Except.error e => Except.error e
        | Except.ok distanceFromTarget =>
          match distancesList allGE hintEmbedding with
          | Except.error e => Except.error e
          | Except.ok distancesFromGuesses =>
            if minT ≤ distanceFromTarget ∧ ∀ d ∈ distancesFromGuesses, minG ≤ d then
              Except.ok (some hintWord)
            else findHintPass1 pd gs allGE minT minG rest
    | _, _ => findHintPass1 pd gs allGE minT minG rest

/-- The fallback candidate loop of `findHint`: same exclusions, no
distance constraints, and no embedding-presence check. -/
def findHintPass2 (pd : PuzzleData) (gs : GameState) : List ℕ → Option String
  | [] => none
  | idx :: rest =>
    match pd.hint_vocabulary[idx]? with
    | some hintWord =>
      if hintWord = "" then findHintPass2 pd gs rest
      else if basicExcluded hintWord gs then findHintPass2 pd gs rest
      else if substrExcluded hintWord gs then findHintPass2 pd gs rest
      else some hintWord
    | none => findHintPass2 pd gs rest

/-- `findHint` from `src/client/puzzle.ts`: resolve the guess embedding
(sentinel `"unknown"` when absent), score and rank the whole table, then
run the constrained pass, the fallback pass, and the ultimate sentinel. -/
noncomputable def findHint (pd : PuzzleData) (guess : String) (gs : GameState) :
    Except String String :=
  match getEmbedding pd guess with
  | none => Except.ok "unknown"
  | some guessEmbedding =>
    match computeScores guessEmbedding gs.targetEmbedding pd.hint_embeddings with
    | Except.error e => Except.error e
    | Except.ok collinearityScores =>
      match cosineDistance guessEmbedding gs.targetEmbedding with
      | Except.error e => Except.error e
      | Except.ok D =>
        match findHintPass1 pd gs (gs.guessesHistory.filterMap (getEmbedding pd))
            (0.33 * D) (0.5 * D) (rankIndices collinearityScores) with
        | Except.error e => Except.error e
        | Except.ok (some w) => Except.ok w
        | Except.ok none =>
          match findHintPass2 pd gs (rankIndices collinearityScores) with
          | some w => Except.ok w
          | none => Except.ok "unknown"

/-- The per-post target state stored under `puzzle:target:{postId}`. -/
structure TargetState where
  targetWord : String
  targetEmbedding : List ℝ

/-- The per-player state stored under `puzzle:player:{postId}:{userId}`.
The optional `solved` flag defaults to `false`. -/
structure PlayerState where
  guessesHistory : List String
  usedHints : List String
  solved : Bool := false
deriving DecidableEq

/-- The JSON body sent back by the `/api/puzzle/hint` route.  Fields
absent from a given response are `none`. -/
structure HintResponse where
  correct : Option Bool
  isGameOver : Bool
  message : Option String
  hint : Option String
  guessesRemaining : Option ℕ
deriving DecidableEq

/-- The guess-processing portion of the `/api/puzzle/hint` route (after
input validation and lazy state creation): reject terminal sessions,
record the guess, check win then attempt ceiling, else compute a hint
and record it.  Returns the response and the player state as persisted;
a hint-computation exception propagates and nothing is persisted. -/
noncomputable def submitGuess (pd : PuzzleData) (guess : String)
    (ts : TargetState) (ps : PlayerState) :
    Except String (HintResponse × PlayerState) :=
  if ps.solved then
    Except.ok
      ({ correct := none, isGameOver := true,
         message := some ("You have already completed this puzzle! The word was \x27"
           ++ ts.targetWord ++ "\x27."),
         hint := none, guessesRemaining := none }, ps)
  else
    let ps1 : PlayerState := { ps with guessesHistory := ps.guessesHistory ++ [guess] }
    if guess = ts.targetWord then
      Except.ok
        ({ correct := some true, isGameOver := true,
           message := some ("Congratulations! You guessed the word in "
             ++ toString ps1.guessesHistory.length ++ " tries!"),
           hint := none, guessesRemaining := none }, { ps1 with solved := true })
    else if 10 ≤ ps1.guessesHistory.length then
      Except.ok
        ({ correct := some false, isGameOver := true,
           message := some ("You\x27ve used all 10 guesses! The word was \x27"
             ++ ts.targetWord ++ "\x27."),
           hint := none, guessesRemaining := none }, { ps1 with solved := true })
    else
      match findHint pd guess
          { targetWord := ts.targetWord, targetEmbedding := ts.targetEmbedding,
            guessesHistory := ps1.guessesHistory, usedHints := ps1.usedHints,
            solved := ps1.solved } with
      | Except.error e => Except.error e
      | Except.ok hint =>
        Except.ok
          ({ correct := some false, isGameOver := false, message := none,
             hint := some hint,
             guessesRemaining := some (10 - ps1.guessesHistory.length) },
           { ps1 with usedHints := ps1.usedHints ++ [hint] })

/-- Pure characterisation of acceptance by the distance-constrained pass
of `findHint` at table index `idx`: word and embedding slots present,
word non-empty and not excluded, all the distance computations succeed
(equal lengths) and both thresholds hold. -/
def pass1Accept (pd : PuzzleData) (gs : GameState) (allGE : List (List ℝ))
    (minT minG : ℝ) (idx : ℕ) : Prop :=
  ∃ hw he, pd.hint_vocabulary[idx]? = some hw ∧ pd.hint_embeddings[idx]? = some he ∧
    hw ≠ "" ∧ ¬ basicExcluded hw gs ∧ ¬ substrExcluded hw gs ∧
    gs.targetEmbedding.length = he.length ∧ (∀ g ∈ allGE, g.length = he.length) ∧
    minT ≤ cosineDistanceFn gs.targetEmbedding he ∧
    (∀ g ∈ allGE, minG ≤ cosineDistanceFn g he)

theorem sumSq_nonneg (a : List ℝ) : 0 ≤ sumSq a := by
  apply List.sum_nonneg
  intro x hx
  obtain ⟨y, -, rfl⟩ := List.mem_map.mp hx
  exact mul_self_nonneg y

theorem magnitude_nonneg (a : List ℝ) : 0 ≤ magnitude a := Real.sqrt_nonneg _

theorem magnitude_eq_zero_iff (a : List ℝ) : magnitude a = 0 ↔ sumSq a = 0 := by
  unfold magnitude
  constructor
  · intro h
    have := Real.sqrt_eq_zero (sumSq_nonneg a) |>.mp h
    exact this
  · intro h
    simp [h]

/-- Claim C7: `cosineDistance` errors exactly when the lengths differ; on
equal-length inputs it returns `1` when either vector has zero magnitude
and `1 - (a·b)/(|a||b|)` otherwise. -/
theorem cosineDistance_contract (a b : List ℝ) :
    ((∃ r, cosineDistance a b = Except.ok r) ↔ a.length = b.length) ∧
    (a.length = b.length →
      ((magnitude a = 0 ∨ magnitude b = 0) → cosineDistance a b = Except.ok 1) ∧
      (magnitude a ≠ 0 → magnitude b ≠ 0 →
        cosineDistance a b = Except.ok (1 - dotList a b / (magnitude a * magnitude b)))) := by
  constructor
  · constructor
    · rintro ⟨r, hr⟩
      by_contra hlen
      simp [cosineDistance, hlen] at hr
    · intro hlen
      exact ⟨cosineDistanceFn a b, by simp [cosineDistance, hlen]⟩
  · intro hlen
    constructor
    · intro hz
      simp [cosineDistance, hlen, cosineDistanceFn, hz]
    · intro ha hb
      have : ¬ (magnitude a = 0 ∨ magnitude b = 0) := by
        rintro (h | h) <;> [exact ha h; exact hb h]
      simp [cosineDistance, hlen, cosineDistanceFn, this]

/-- Witness for C7 at a concrete input: a zero vector gives distance
exactly `1`, and the mismatched-length case errors. -/
theorem cosineDistance_contract_instance :
    cosineDistance [(0 : ℝ), 0] [3, 4] = Except.ok 1 ∧
    ¬ ∃ r, cosineDistance [(0 : ℝ)] [1, 2] = Except.ok r := by
  constructor
  · refine ((cosineDistance_contract [(0 : ℝ), 0] [3, 4]).2 rfl).1 (Or.inl ?_)
    rw [magnitude_eq_zero_iff]
    norm_num [sumSq]
  · intro h
    have := (cosineDistance_contract [(0 : ℝ)] [1, 2]).1.mp h
    simp at this

/-- Claim C5: the seeded shuffle ignores the seed string, and the target
word for a counter value is a function of the vocabulary content alone
(embeddings and seed strings are irrelevant), so two evaluations with the
same vocabulary and counter agree. -/
theorem shuffle_seed_independent_target_deterministic
    (pd₁ pd₂ : PuzzleData) (s₁ s₂ : String) (k : ℕ)
    (h : pd₁.hint_vocabulary = pd₂.hint_vocabulary) :
    shuffleWithSeed pd₁.hint_vocabulary s₁ = shuffleWithSeed pd₂.hint_vocabulary s₂ ∧
    targetWordForCounter pd₁ k = targetWordForCounter pd₂ k := by
  constructor
  · simp only [shuffleWithSeed, h]
  · simp only [targetWordForCounter, shuffledVocabulary, shuffleWithSeed, h]

/-- Witness for C5: two puzzle payloads sharing a vocabulary but with
different embeddings, different seeds and counter `7` agree. -/
theorem shuffle_seed_independent_target_deterministic_instance :
    shuffleWithSeed (PuzzleData.hint_vocabulary ⟨["cat", "dog"], [[1, 0], [0, 1]]⟩) "seedA"
      = shuffleWithSeed (PuzzleData.hint_vocabulary ⟨["cat", "dog"], []⟩) "seedB" ∧
    targetWordForCounter ⟨["cat", "dog"], [[1, 0], [0, 1]]⟩ 7
      = targetWordForCounter ⟨["cat", "dog"], []⟩ 7 :=
  shuffle_seed_independent_target_deterministic
    ⟨["cat", "dog"], [[1, 0], [0, 1]]⟩ ⟨["cat", "dog"], []⟩ "seedA" "seedB" 7 rfl


theorem runGetInstance_some (pm : PuzzleManager) (pds : List PuzzleData) :
    runGetInstance (some pm) pds = (List.replicate pds.length pm, some pm) := by
  induction pds with
  | nil => rfl
  | cons pd rest ih =>
    simp [runGetInstance, getPuzzleManager, getInstance, ih, List.replicate_succ]

/-- Claim C9: `getPuzzleManager` is a process-wide singleton.  Starting
from an empty static field, the first call constructs the manager from
its payload; every subsequent call returns that same manager and its
payload argument is ignored entirely. -/
theorem getInstance_singleton (pd₀ : PuzzleData) (pds : List PuzzleData) :
    runGetInstance none (pd₀ :: pds)
      = (List.replicate (pds.length + 1) { puzzleData := pd₀ },
         some { puzzleData := pd₀ }) := by
  simp [runGetInstance, getPuzzleManager, getInstance, runGetInstance_some,
    List.replicate_succ]


/-- Claim C1: on an active session, the guess is appended first; a guess
equal to the target wins at any attempt count (the win check precedes the
attempt-ceiling check); otherwise a tenth-or-later recorded guess loses
and reveals the target; otherwise the computed hint is appended to
`usedHints` and returned with `guessesRemaining = 10 - len(history)`. -/
theorem submitGuess_active_progression (pd : PuzzleData) (guess : String)
    (ts : TargetState) (ps : PlayerState) (h : ps.solved = false) :
    (guess = ts.targetWord →
      submitGuess pd guess ts ps = Except.ok
        ({ correct := some true, isGameOver := true,
           message := some ("Congratulations! You guessed the word in "
             ++ toString (ps.guessesHistory.length + 1) ++ " tries!"),
           hint := none, guessesRemaining := none },
         { guessesHistory := ps.guessesHistory ++ [guess],
           usedHints := ps.usedHints, solved := true })) ∧
    (guess ≠ ts.targetWord → 10 ≤ ps.guessesHistory.length + 1 →
      submitGuess pd guess ts ps = Except.ok
        ({ correct := some false, isGameOver := true,
           message := some ("You\x27ve used all 10 guesses! The word was \x27"
             ++ ts.targetWord ++ "\x27."),
           hint := none, guessesRemaining := none },
         { guessesHistory := ps.guessesHistory ++ [guess],
           usedHints := ps.usedHints, solved := true }) ∧
      (∃ l r, ("You\x27ve used all 10 guesses! The word was \x27"
             ++ ts.targetWord ++ "\x27.") = l ++ ts.targetWord ++ r)) ∧
    (∀ hintWord, guess ≠ ts.targetWord → ps.guessesHistory.length + 1 < 10 →
      findHint pd guess
          { targetWord := ts.targetWord, targetEmbedding := ts.targetEmbedding,
            guessesHistory := ps.guessesHistory ++ [guess],
            usedHints := ps.usedHints, solved := false } = Except.ok hintWord →
      submitGuess pd guess ts ps = Except.ok
        ({ correct := some false, isGameOver := false, message := none,
           hint := some hintWord,
           guessesRemaining := some (10 - (ps.guessesHistory.length + 1)) },
         { guessesHistory := ps.guessesHistory ++ [guess],
           usedHints := ps.usedHints ++ [hintWord], solved := false })) := by
  refine ⟨?_, ?_, ?_⟩
  · intro hw
    simp [submitGuess, h, hw]
  · intro hw hlen
    refine ⟨?_, "You\x27ve used all 10 guesses! The word was \x27", "\x27.", rfl⟩
    simp [submitGuess, h, hw, hlen]
  · intro hintWord hw hlen hfind
    have hlen' : ¬ 10 ≤ ps.guessesHistory.length + 1 := by omega
    simp [submitGuess, h, hw, hlen', hfind]

/-- Witness for C1: a correct first guess on a fresh session wins with
one attempt used. -/
theorem submitGuess_active_progression_instance :
    ∃ resp st, submitGuess ⟨[], []⟩ "cat" ⟨"cat", []⟩ ⟨[], [], false⟩
        = Except.ok (resp, st) ∧
      resp.correct = some true ∧ resp.isGameOver = true ∧ st.solved = true ∧
      st.guessesHistory = ["cat"] :=
  ⟨_, _,
    (submitGuess_active_progression ⟨[], []⟩ "cat" ⟨"cat", []⟩ ⟨[], [], false⟩ rfl).1 rfl,
    rfl, rfl, rfl, rfl⟩

/-- Claim C6: on a terminal session, `submitGuess` leaves the player
state untouched, computes no hint, and reports the already-completed
outcome whose message contains the target word. -/
theorem submitGuess_terminal_rejects (pd : PuzzleData) (guess : String)
    (ts : TargetState) (ps : PlayerState) (h : ps.solved = true) :
    submitGuess pd guess ts ps = Except.ok
      ({ correct := none, isGameOver := true,
         message := some ("You have already completed this puzzle! The word was \x27"
           ++ ts.targetWord ++ "\x27."),
         hint := none, guessesRemaining := none }, ps) ∧
    (∃ l r, ("You have already completed this puzzle! The word was \x27"
           ++ ts.targetWord ++ "\x27.") = l ++ ts.targetWord ++ r) := by
  refine ⟨by simp [submitGuess, h],
    "You have already completed this puzzle! The word was \x27", "\x27.", rfl⟩

/-- Witness for C6: submitting against a solved session changes nothing,
even when the guess would otherwise have been the eleventh. -/
theorem submitGuess_terminal_rejects_instance :
    submitGuess ⟨[], []⟩ "dog" ⟨"cat", []⟩ ⟨["a", "b"], ["h"], true⟩ = Except.ok
      ({ correct := none, isGameOver := true,
         message := some ("You have already completed this puzzle! The word was \x27"
           ++ "cat" ++ "\x27."),
         hint := none, guessesRemaining := none }, ⟨["a", "b"], ["h"], true⟩) :=
  (submitGuess_terminal_rejects ⟨[], []⟩ "dog" ⟨"cat", []⟩ ⟨["a", "b"], ["h"], true⟩ rfl).1

theorem cosineDistance_ok_iff (a b : List ℝ) (r : ℝ) :
    cosineDistance a b = Except.ok r ↔ a.length = b.length ∧ r = cosineDistanceFn a b := by
  constructor
  · intro h
    by_cases hl : a.length = b.length
    · simp [cosineDistance, hl] at h
      exact ⟨hl, h.symm⟩
    · simp [cosineDistance, hl] at h
  · rintro ⟨hl, rfl⟩
    simp [cosineDistance, hl]

theorem distancesList_ok (ges : List (List ℝ)) (he : List ℝ)
    (h : ∀ g ∈ ges, g.length = he.length) :
    distancesList ges he = Except.ok (ges.map fun g => cosineDistanceFn g he) := by
  induction ges with
  | nil => rfl
  | cons g rest ih =>
    have hg : g.length = he.length := h g (by simp)
    have hrest := ih fun x hx => h x (by simp [hx])
    simp [distancesList, cosineDistance, hg, hrest]

theorem distancesList_ok_inv (ges : List (List ℝ)) (he : List ℝ) (ds : List ℝ)
    (h : distancesList ges he = Except.ok ds) :
    (∀ g ∈ ges, g.length = he.length) ∧
    ds = ges.map fun g => cosineDistanceFn g he := by
  induction ges generalizing ds with
  | nil =>
    simp [distancesList] at h
    simp [← h]
  | cons g rest ih =>
    cases hcg : cosineDistance g he with
    | error e => simp [distancesList, hcg] at h
    | ok d =>
      cases hrest : distancesList rest he with
      | error e => simp [distancesList, hcg, hrest] at h
      | ok ds' =>
        simp only [distancesList, hcg, hrest] at h
        obtain ⟨hlen, rfl⟩ := (cosineDistance_ok_iff g he d).mp hcg
        obtain ⟨h1, rfl⟩ := ih ds' hrest
        injection h with h
        subst h
        refine ⟨?_, rfl⟩
        intro x hx
        rcases List.mem_cons.mp hx with rfl | hx
        · exact hlen
        · exact h1 x hx

theorem computeScores_ok (a b : List ℝ) (embs : List (List ℝ))
    (h : ∀ he ∈ embs, he.length = a.length ∧ he.length = b.length) :
    computeScores a b embs
      = Except.ok (embs.map fun he => cosineDistanceFn a he + cosineDistanceFn b he) := by
  induction embs with
  | nil => rfl
  | cons he rest ih =>
    obtain ⟨h1, h2⟩ := h he (by simp)
    have hrest := ih fun x hx => h x (by simp [hx])
    simp [computeScores, cosineDistance, h1.symm, h2.symm, hrest]

theorem computeScores_ok_inv (a b : List ℝ) (embs : List (List ℝ)) (s : List ℝ)
    (h : computeScores a b embs = Except.ok s) :
    s = (embs.map fun he => cosineDistanceFn a he + cosineDistanceFn b he) ∧
    ∀ he ∈ embs, he.length = a.length ∧ he.length = b.length := by
  induction embs generalizing s with
  | nil =>
    simp [computeScores] at h
    simp [← h]
  | cons he rest ih =>
    cases hg : cosineDistance a he with
    | error e => simp [computeScores, hg] at h
    | ok gd =>
      cases ht : cosineDistance b he with
      | error e => simp [computeScores, hg, ht] at h
      | ok td =>
        cases hrest : computeScores a b rest with
        | error e => simp [computeScores, hg, ht, hrest] at h
        | ok others =>
          simp only [computeScores, hg, ht, hrest] at h
          obtain ⟨hga, rfl⟩ := (cosineDistance_ok_iff a he gd).mp hg
          obtain ⟨hgb, rfl⟩ := (cosineDistance_ok_iff b he td).mp ht
          obtain ⟨rfl, hr⟩ := ih others hrest
          injection h with h
          subst h
          refine ⟨rfl, ?_⟩
          intro x hx
          rcases List.mem_cons.mp hx with rfl | hx
          · exact ⟨hga.symm, hgb.symm⟩
          · exact hr x hx

theorem findHintPass1_some_spec (pd : PuzzleData) (gs : GameState)
    (allGE : List (List ℝ)) (minT minG : ℝ) :
    ∀ (l : List ℕ) (w : String),
      findHintPass1 pd gs allGE minT minG l = Except.ok (some w) →
      ∃ l₁ idx l₂, l = l₁ ++ idx :: l₂ ∧
        (∀ j ∈ l₁, ¬ pass1Accept pd gs allGE minT minG j) ∧
        pass1Accept pd gs allGE minT minG idx ∧
        pd.hint_vocabulary[idx]? = some w := by
  intro l
  induction l with
  | nil => intro w h; simp [findHintPass1] at h
  | cons idx rest ih =>
    intro w h
    have lift : ¬ pass1Accept pd gs allGE minT minG idx →
        findHintPass1 pd gs allGE minT minG rest = Except.ok (some w) →
        ∃ l₁ i l₂, idx :: rest = l₁ ++ i :: l₂ ∧
          (∀ j ∈ l₁, ¬ pass1Accept pd gs allGE minT minG j) ∧
          pass1Accept pd gs allGE minT minG i ∧
          pd.hint_vocabulary[i]? = some w := by
      intro hna hr
      obtain ⟨l₁, i, l₂, heq, hskip, hacc, hvw⟩ := ih w hr
      refine ⟨idx :: l₁, i, l₂, by rw [heq]; rfl, ?_, hacc, hvw⟩
      intro j hj
      rcases List.mem_cons.mp hj with rfl | hj
      · exact hna
      · exact hskip j hj
    cases hv : pd.hint_vocabulary[idx]? with
    | none =>
      refine lift ?_ (by simpa [findHintPass1, hv] using h)
      rintro ⟨hw, he, hv', -⟩
      rw [hv] at hv'
      cases hv'
    | some hw =>
      cases hemb : pd.hint_embeddings[idx]? with
      | none =>
        refine lift ?_ (by simpa [findHintPass1, hv, hemb] using h)
        rintro ⟨hw', he, -, hemb', -⟩
        rw [hemb] at hemb'
        cases hemb'
      | some he =>
        by_cases h1 : hw = ""
        · refine lift ?_ (by simpa [findHintPass1, hv, hemb, h1] using h)
          rintro ⟨hw', he', hv', -, hne, -⟩
          rw [hv] at hv'
          injection hv' with e1
          exact hne (by rw [← e1]; exact h1)
        · by_cases h2 : basicExcluded hw gs
          · refine lift ?_ (by simpa [findHintPass1, hv, hemb, h1, h2] using h)
            rintro ⟨hw', he', hv', -, -, hnb, -⟩
            rw [hv] at hv'
            injection hv' with e1
            exact hnb (e1 ▸ h2)
          · by_cases h3 : substrExcluded hw gs
            · refine lift ?_ (by simpa [findHintPass1, hv, hemb, h1, h2, h3] using h)
              rintro ⟨hw', he', hv', -, -, -, hns, -⟩
              rw [hv] at hv'
              injection hv' with e1
              exact hns (e1 ▸ h3)
            · cases hcd : cosineDistance gs.targetEmbedding he with
              | error e => simp [findHintPass1, hv, hemb, h1, h2, h3, hcd] at h
              | ok dT =>
                cases hdl : distancesList allGE he with
                | error e => simp [findHintPass1, hv, hemb, h1, h2, h3, hcd, hdl] at h
                | ok ds =>
                  by_cases h4 : minT ≤ dT ∧ ∀ d ∈ ds, minG ≤ d
                  · have h' := h
                    simp only [findHintPass1, hv, hemb] at h'
                    rw [if_neg h1, if_neg h2, if_neg h3] at h'
                    simp only [hcd, hdl] at h'
                    rw [if_pos h4] at h'
                    injection h' with h''
                    injection h'' with hw_eq
                    have hw_eq : hw = w := hw_eq
                    obtain ⟨hlen, rfl⟩ := (cosineDistance_ok_iff _ _ _).mp hcd
                    obtain ⟨hall, rfl⟩ := distancesList_ok_inv _ _ _ hdl
                    refine ⟨[], idx, rest, rfl, by simp, ?_, by rw [hv, hw_eq]⟩
                    refine ⟨hw, he, hv, hemb, h1, h2, h3, hlen, hall, h4.1, ?_⟩
                    intro g hg
                    exact h4.2 _ (List.mem_map_of_mem _ hg)
                  · refine lift ?_
                      (by simpa [findHintPass1, hv, hemb, h1, h2, h3, hcd, hdl, h4] using h)
                    rintro ⟨hw', he', hv', hemb', -, -, -, -, -, hT, hG⟩
                    rw [hv] at hv'
                    injection hv' with e1
                    rw [hemb] at hemb'
                    injection hemb' with e2
                    subst e2
                    apply h4
                    obtain ⟨hlen, rfl⟩ := (cosineDistance_ok_iff _ _ _).mp hcd
                    obtain ⟨hall, rfl⟩ := distancesList_ok_inv _ _ _ hdl
                    refine ⟨hT, ?_⟩
                    intro d hd
                    obtain ⟨g, hg, rfl⟩ := List.mem_map.mp hd
                    exact hG g hg

theorem findHintPass1_none_spec (pd : PuzzleData) (gs : GameState)
    (allGE : List (List ℝ)) (minT minG : ℝ) :
    ∀ (l : List ℕ),
      findHintPass1 pd gs allGE minT minG l = Except.ok none →
      ∀ j ∈ l, ¬ pass1Accept pd gs allGE minT minG j := by
  intro l
  induction l with
  | nil => intro _ j hj; simp at hj
  | cons idx rest ih =>
    intro h j hj
    have lift : ¬ pass1Accept pd gs allGE minT minG idx →
        findHintPass1 pd gs allGE minT minG rest = Except.ok none →
        ¬ pass1Accept pd gs allGE minT minG j := by
      intro hna hr
      rcases List.mem_cons.mp hj with rfl | hj'
      · exact hna
      · exact ih hr j hj'
    cases hv : pd.hint_vocabulary[idx]? with
    | none =>
      refine lift ?_ (by simpa [findHintPass1, hv] using h)
      rintro ⟨hw, he, hv', -⟩
      rw [hv] at hv'
      cases hv'
    | some hw =>
      cases hemb : pd.hint_embeddings[idx]? with
      | none =>
        refine lift ?_ (by simpa [findHintPass1, hv, hemb] using h)
        rintro ⟨hw', he, -, hemb', -⟩
        rw [hemb] at hemb'
        cases hemb'
      | some he =>
        by_cases h1 : hw = ""
        · refine lift ?_ (by simpa [findHintPass1, hv, hemb, h1] using h)
          rintro ⟨hw', he', hv', -, hne, -⟩
          rw [hv] at hv'
          injection hv' with e1
          exact hne (by rw [← e1]; exact h1)
        · by_cases h2 : basicExcluded hw gs
          · refine lift ?_ (by simpa [findHintPass1, hv, hemb, h1, h2] using h)
            rintro ⟨hw', he', hv', -, -, hnb, -⟩
            rw [hv] at hv'
            injection hv' with e1
            exact hnb (e1 ▸ h2)
          · by_cases h3 : substrExcluded hw gs
            · refine lift ?_ (by simpa [findHintPass1, hv, hemb, h1, h2, h3] using h)
              rintro ⟨hw', he', hv', -, -, -, hns, -⟩
              rw [hv] at hv'
              injection hv' with e1
              exact hns (e1 ▸ h3)
            · cases hcd : cosineDistance gs.targetEmbedding he with
              | error e => simp [findHintPass1, hv, hemb, h1, h2, h3, hcd] at h
              | ok dT =>
                cases hdl : distancesList allGE he with
                | error e => simp [findHintPass1, hv, hemb, h1, h2, h3, hcd, hdl] at h
                | ok ds =>
                  by_cases h4 : minT ≤ dT ∧ ∀ d ∈ ds, minG ≤ d
                  · exfalso
                    have h' := h
                    simp only [findHintPass1, hv, hemb] at h'
                    rw [if_neg h1, if_neg h2, if_neg h3] at h'
                    simp only [hcd, hdl] at h'
                    rw [if_pos h4] at h'
                    cases h'
                  · have h' := h
                    simp only [findHintPass1, hv, hemb] at h'
                    rw [if_neg h1, if_neg h2, if_neg h3] at h'
                    simp only [hcd, hdl] at h'
                    rw [if_neg h4] at h'
                    refine lift ?_ h'
                    rintro ⟨hw', he', hv', hemb', -, -, -, -, -, hT, hG⟩
                    rw [hv] at hv'
                    injection hv' with e1
                    rw [hemb] at hemb'
                    injection hemb' with e2
                    subst e2
                    apply h4
                    obtain ⟨hlen, rfl⟩ := (cosineDistance_ok_iff _ _ _).mp hcd
                    obtain ⟨hall, rfl⟩ := distancesList_ok_inv _ _ _ hdl
                    refine ⟨hT, ?_⟩
                    intro d hd
                    obtain ⟨g, hg, rfl⟩ := List.mem_map.mp hd
                    exact hG g hg

theorem findHintPass1_no_error (pd : PuzzleData) (gs : GameState)
    (allGE : List (List ℝ)) (minT minG : ℝ) :
    ∀ (l : List ℕ),
      (∀ idx ∈ l, ∀ he, pd.hint_embeddings[idx]? = some he →
        gs.targetEmbedding.length = he.length ∧ ∀ g ∈ allGE, g.length = he.length) →
      ∃ o, findHintPass1 pd gs allGE minT minG l = Except.ok o := by
  intro l
  induction l with
  | nil => intro _; exact ⟨none, rfl⟩
  | cons idx rest ih =>
    intro hclean
    have hrest := ih fun j hj => hclean j (by simp [hj])
    cases hv : pd.hint_vocabulary[idx]? with
    | none => simpa [findHintPass1, hv] using hrest
    | some hw =>
      cases hemb : pd.hint_embeddings[idx]? with
      | none => simpa [findHintPass1, hv, hemb] using hrest
      | some he =>
        obtain ⟨hlen, hall⟩ := hclean idx (by simp) he hemb
        have hcd : cosineDistance gs.targetEmbedding he
            = Except.ok (cosineDistanceFn gs.targetEmbedding he) := by
          simp [cosineDistance, hlen]
        have hdl := distancesList_ok allGE he hall
        by_cases h1 : hw = ""
        · simpa [findHintPass1, hv, hemb, h1] using hrest
        · by_cases h2 : basicExcluded hw gs
          · simpa [findHintPass1, hv, hemb, h1, h2] using hrest
          · by_cases h3 : substrExcluded hw gs
            · simpa [findHintPass1, hv, hemb, h1, h2, h3] using hrest
            · by_cases h4 : minT ≤ cosineDistanceFn gs.targetEmbedding he ∧
                ∀ d ∈ allGE.map (fun g => cosineDistanceFn g he), minG ≤ d
              · refine ⟨some hw, ?_⟩
                simp only [findHintPass1, hv, hemb]
                rw [if_neg h1, if_neg h2, if_neg h3]
                simp only [hcd, hdl]
                rw [if_pos h4]
              · obtain ⟨o, ho⟩ := hrest
                refine ⟨o, ?_⟩
                simp only [findHintPass1, hv, hemb]
                rw [if_neg h1, if_neg h2, if_neg h3]
                simp only [hcd, hdl]
                rw [if_neg h4]
                exact ho

theorem findHintPass2_some_spec (pd : PuzzleData) (gs : GameState) :
    ∀ (l : List ℕ) (w : String),
      findHintPass2 pd gs l = some w →
      ∃ idx ∈ l, pd.hint_vocabulary[idx]? = some w ∧ w ≠ "" ∧
        ¬ basicExcluded w gs ∧ ¬ substrExcluded w gs := by
  intro l
  induction l with
  | nil => intro w h; simp [findHintPass2] at h
  | cons idx rest ih =>
    intro w h
    have lift : findHintPass2 pd gs rest = some w →
        ∃ i ∈ idx :: rest, pd.hint_vocabulary[i]? = some w ∧ w ≠ "" ∧
          ¬ basicExcluded w gs ∧ ¬ substrExcluded w gs := by
      intro hr
      obtain ⟨i, hi, hrest⟩ := ih w hr
      exact ⟨i, by simp [hi], hrest⟩
    cases hv : pd.hint_vocabulary[idx]? with
    | none => exact lift (by simpa [findHintPass2, hv] using h)
    | some hw =>
      by_cases h1 : hw = ""
      · exact lift (by simpa [findHintPass2, hv, h1] using h)
      · by_cases h2 : basicExcluded hw gs
        · exact lift (by simpa [findHintPass2, hv, h1, h2] using h)
        · by_cases h3 : substrExcluded hw gs
          · exact lift (by simpa [findHintPass2, hv, h1, h2, h3] using h)
          · have hw_eq : hw = w := by
              simpa [findHintPass2, hv, h1, h2, h3] using h
            subst hw_eq
            exact ⟨idx, by simp, hv, h1, h2, h3⟩

theorem getEmbedding_mem (pd : PuzzleData) (w : String) :
    ∀ (L : List ℕ) (acc : Option (List ℝ)),
      (∀ x, acc = some x → x ∈ pd.hint_embeddings) →
      ∀ e, L.foldl (fun acc i =>
          match pd.hint_vocabulary[i]?, pd.hint_embeddings[i]? with
          | some word, some emb => if word ≠ "" ∧ word = w then some emb else acc
          | _, _ => acc) acc = some e →
      e ∈ pd.hint_embeddings := by
  intro L
  induction L with
  | nil => intro acc hacc e h; exact hacc e (by simpa using h)
  | cons i rest ih =>
    intro acc hacc e h
    rw [List.foldl_cons] at h
    refine ih _ ?_ e h
    intro x hx
    cases hv : pd.hint_vocabulary[i]? with
    | none =>
      rw [hv] at hx
      exact hacc x hx
    | some word =>
      cases hemb : pd.hint_embeddings[i]? with
      | none =>
        rw [hv, hemb] at hx
        exact hacc x hx
      | some emb =>
        rw [hv, hemb] at hx
        simp only [] at hx
        by_cases hc : word ≠ "" ∧ word = w
        · rw [if_pos hc] at hx
          injection hx with hx
          exact hx ▸ List.getElem?_mem hemb
        · rw [if_neg hc] at hx
          exact hacc x hx

/-- If `getEmbedding` finds an embedding for `w`, that embedding is one
of the table entries. -/
theorem getEmbedding_mem_embeddings (pd : PuzzleData) (w : String) (e : List ℝ)
    (h : getEmbedding pd w = some e) : e ∈ pd.hint_embeddings :=
  getEmbedding_mem pd w _ none (by intro x hx; cases hx) e h

theorem getEmbedding_step_isSome (pd : PuzzleData) (w : String) :
    ∀ (L : List ℕ) (acc : Option (List ℝ)), acc.isSome →
      (L.foldl (fun acc i =>
          match pd.hint_vocabulary[i]?, pd.hint_embeddings[i]? with
          | some word, some emb => if word ≠ "" ∧ word = w then some emb else acc
          | _, _ => acc) acc).isSome := by
  intro L
  induction L with
  | nil => intro acc hacc; simpa using hacc
  | cons i rest ih =>
    intro acc hacc
    rw [List.foldl_cons]
    refine ih _ ?_
    cases hv : pd.hint_vocabulary[i]? with
    | none => exact hacc
    | some word =>
      cases hemb : pd.hint_embeddings[i]? with
      | none => exact hacc
      | some emb =>
        show (if word ≠ "" ∧ word = w then some emb else acc).isSome = true
        by_cases hc : word ≠ "" ∧ word = w
        · rw [if_pos hc]; rfl
        · rw [if_neg hc]; exact hacc

theorem getEmbedding_hit_isSome (pd : PuzzleData) (w : String) (i : ℕ) :
    ∀ (L : List ℕ) (acc : Option (List ℝ)), i ∈ L →
      pd.hint_vocabulary[i]? = some w → w ≠ "" →
      (∃ e, pd.hint_embeddings[i]? = some e) →
      (L.foldl (fun acc i =>
          match pd.hint_vocabulary[i]?, pd.hint_embeddings[i]? with
          | some word, some emb => if word ≠ "" ∧ word = w then some emb else acc
          | _, _ => acc) acc).isSome := by
  intro L
  induction L with
  | nil => intro acc hi; simp at hi
  | cons j rest ih =>
    intro acc hi hv hne he
    rw [List.foldl_cons]
    rcases List.mem_cons.mp hi with rfl | hi'
    · obtain ⟨e, he⟩ := he
      refine getEmbedding_step_isSome pd w rest _ ?_
      rw [hv, he]
      show (if w ≠ "" ∧ w = w then some e else acc).isSome = true
      rw [if_pos ⟨hne, rfl⟩]
      rfl
    · exact ih _ hi' hv hne he

/-- Any vocabulary entry with a non-empty word and a present embedding
slot is found by `getEmbedding`. -/
theorem getEmbedding_isSome (pd : PuzzleData) (w : String) (i : ℕ)
    (hv : pd.hint_vocabulary[i]? = some w) (hne : w ≠ "")
    (he : ∃ e, pd.hint_embeddings[i]? = some e) :
    ∃ e, getEmbedding pd w = some e := by
  have hi : i ∈ List.range pd.hint_vocabulary.length := by
    rw [List.mem_range]
    obtain ⟨h, -⟩ := List.getElem?_eq_some_iff.mp hv
    exact h
  have := getEmbedding_hit_isSome pd w i (List.range pd.hint_vocabulary.length) none hi hv hne he
  exact Option.isSome_iff_exists.mp this

/-- Claim C2 as frozen is refuted at a concrete input: with vocabulary
`["cat"]`, target `"cat"` and `usedHints = ["unknown"]`, every candidate
is excluded, so `findHint` returns the sentinel `"unknown"`, which is a
word appearing in `usedHints`. -/
theorem findHint_sentinel_collision :
    findHint ⟨["cat"], [[1]]⟩ "cat"
        ⟨"cat", [1], ["cat"], ["unknown"], false⟩ = Except.ok "unknown" ∧
    "unknown" ∈ GameState.usedHints ⟨"cat", [1], ["cat"], ["unknown"], false⟩ := by
  constructor
  · have hge : getEmbedding ⟨["cat"], [[1]]⟩ "cat" = some [1] := by
      simp [getEmbedding, List.range_succ]
    have hfn : cosineDistanceFn [(1 : ℝ)] [1] = 0 := by
      rw [cosineDistanceFn]
      rw [if_neg]
      · norm_num [dotList, magnitude, sumSq]
      · norm_num [magnitude, sumSq]
    have hcd : cosineDistance [(1 : ℝ)] [1] = Except.ok 0 := by
      rw [cosineDistance]
      norm_num [hfn]
    have hsc : computeScores [(1 : ℝ)] [1] [[1]] = Except.ok [0] := by
      rw [computeScores, hcd, computeScores]
      norm_num
    have hrank : rankIndices [(0 : ℝ)] = [0] := by
      simp [rankIndices, List.range_succ]
    have hp1 : findHintPass1 ⟨["cat"], [[1]]⟩ ⟨"cat", [1], ["cat"], ["unknown"], false⟩
        (List.filterMap (getEmbedding ⟨["cat"], [[1]]⟩) ["cat"]) 0 0 [0]
        = Except.ok none := by
      rw [findHintPass1]
      simp only [List.getElem?_cons_zero]
      rw [if_neg (by simp), if_pos (by simp [basicExcluded])]
      rfl
    have hp2 : findHintPass2 ⟨["cat"], [[1]]⟩ ⟨"cat", [1], ["cat"], ["unknown"], false⟩ [0]
        = none := by
      rw [findHintPass2]
      simp only [List.getElem?_cons_zero]
      rw [if_neg (by simp), if_pos (by simp [basicExcluded])]
      rfl
    rw [findHint, hge]
    simp only []
    rw [hsc]
    simp only []
    rw [hcd]
    simp only [hrank]
    rw [show (0.33 : ℝ) * 0 = 0 by norm_num, show (0.5 : ℝ) * 0 = 0 by norm_num]
    rw [hp1]
    simp only []
    rw [hp2]
  · simp

/-- Claim C2 (amended): whenever `findHint` returns a word other than the
sentinel `"unknown"`, that word differs from the target, does not appear
in `guessesHistory` or `usedHints`, and has no substring collision (with
the shorter side of length ≥ 3) with any of target, history or hints. -/
theorem findHint_nonsentinel_exclusions (pd : PuzzleData) (guess : String)
    (gs : GameState) (w : String)
    (h : findHint pd guess gs = Except.ok w) (hw : w ≠ "unknown") :
    (w ≠ gs.targetWord ∧ w ∉ gs.guessesHistory ∧ w ∉ gs.usedHints) ∧
    ∀ v ∈ wordsToCheck gs,
      ¬ (3 ≤ v.length ∧ jsIncludes w v = true) ∧
      ¬ (3 ≤ w.length ∧ jsIncludes v w = true) := by
  have conv : ¬ basicExcluded w gs → ¬ substrExcluded w gs →
      (w ≠ gs.targetWord ∧ w ∉ gs.guessesHistory ∧ w ∉ gs.usedHints) ∧
      ∀ v ∈ wordsToCheck gs,
        ¬ (3 ≤ v.length ∧ jsIncludes w v = true) ∧
        ¬ (3 ≤ w.length ∧ jsIncludes v w = true) := by
    intro hnb hns
    constructor
    · unfold basicExcluded at hnb
      push_neg at hnb
      exact hnb
    · intro v hv
      constructor
      · intro hc; exact hns ⟨v, hv, Or.inl hc⟩
      · intro hc; exact hns ⟨v, hv, Or.inr hc⟩
  unfold findHint at h
  cases hge : getEmbedding pd guess with
  | none =>
    rw [hge] at h
    simp only [] at h
    injection h with h'
    exact absurd h'.symm hw
  | some ge =>
    rw [hge] at h
    simp only [] at h
    cases hsc : computeScores ge gs.targetEmbedding pd.hint_embeddings with
    | error e =>
      rw [hsc] at h
      simp only [] at h
      cases h
    | ok scores =>
      rw [hsc] at h
      simp only [] at h
      cases hD : cosineDistance ge gs.targetEmbedding with
      | error e =>
        rw [hD] at h
        simp only [] at h
        cases h
      | ok D =>
        rw [hD] at h
        simp only [] at h
        cases hp1 : findHintPass1 pd gs (gs.guessesHistory.filterMap (getEmbedding pd))
            (0.33 * D) (0.5 * D) (rankIndices scores) with
        | error e =>
          rw [hp1] at h
          simp only [] at h
          cases h
        | ok o =>
          rw [hp1] at h
          cases o with
          | some w' =>
            simp only [] at h
            injection h with h'
            subst h'
            obtain ⟨l₁, idx, l₂, -, -, hacc, hvw⟩ :=
              findHintPass1_some_spec _ _ _ _ _ _ _ hp1
            obtain ⟨hw', he, hv', hemb', hne, hnb, hns, -⟩ := hacc
            rw [hvw] at hv'
            injection hv' with e1
            subst e1
            exact conv hnb hns
          | none =>
            simp only [] at h
            cases hp2 : findHintPass2 pd gs (rankIndices scores) with
            | some w' =>
              rw [hp2] at h
              simp only [] at h
              injection h with h'
              subst h'
              obtain ⟨idx, hidx, hv', hne, hnb, hns⟩ :=
                findHintPass2_some_spec _ _ _ _ hp2
              exact conv hnb hns
            | none =>
              rw [hp2] at h
              simp only [] at h
              injection h with h'
              exact absurd h'.symm hw

/-- Evaluation helpers at the concrete payload `⟨["aa","bb"],
[[0,0],[0,0]]⟩` with target state `⟨"tt",[0,0]⟩`: every distance is the
neutral `1` (zero magnitudes), the scores tie at `2`, the stable ranking
is `[0, 1]`, and the constrained pass accepts `"aa"`. -/
theorem getEmbedding_example :
    getEmbedding ⟨["aa", "bb"], [[0, 0], [0, 0]]⟩ "aa" = some [0, 0] := by
  simp [getEmbedding, List.range_succ]

theorem magnitude_zeros : magnitude [(0 : ℝ), 0] = 0 := by
  norm_num [magnitude, sumSq]

theorem cosineDistanceFn_zeros : cosineDistanceFn [(0 : ℝ), 0] [0, 0] = 1 := by
  rw [cosineDistanceFn, if_pos (Or.inl magnitude_zeros)]

theorem cosineDistance_zeros : cosineDistance [(0 : ℝ), 0] [0, 0] = Except.ok 1 := by
  rw [cosineDistance]
  norm_num [cosineDistanceFn_zeros]

theorem computeScores_example :
    computeScores [(0 : ℝ), 0] [0, 0] [[0, 0], [0, 0]] = Except.ok [2, 2] := by
  simp only [computeScores, cosineDistance_zeros]
  norm_num

theorem rankIndices_example : rankIndices [(2 : ℝ), 2] = [0, 1] := by
  rw [rankIndices]
  have hr2 : List.range ([(2 : ℝ), 2]).length = [0, 1] := by
    simp [List.range_succ]
  rw [hr2]
  apply List.mergeSort_of_sorted
  simp

theorem findHintPass1_example :
    findHintPass1 ⟨["aa", "bb"], [[0, 0], [0, 0]]⟩ ⟨"tt", [0, 0], [], [], false⟩
      (List.filterMap (getEmbedding ⟨["aa", "bb"], [[0, 0], [0, 0]]⟩) [])
      (0.33 * 1) (0.5 * 1) [0, 1] = Except.ok (some "aa") := by
  rw [findHintPass1]
  simp only [List.getElem?_cons_zero]
  rw [if_neg (by decide), if_neg (by decide), if_neg (by decide)]
  simp only [cosineDistance_zeros, List.filterMap, distancesList]
  rw [if_pos ⟨by norm_num, by simp⟩]

/-- Concrete end-to-end evaluation of `findHint` used by several
witnesses. -/
theorem findHint_example_eval :
    findHint ⟨["aa", "bb"], [[0, 0], [0, 0]]⟩ "aa" ⟨"tt", [0, 0], [], [], false⟩
      = Except.ok "aa" := by
  simp only [findHint, getEmbedding_example, computeScores_example,
    cosineDistance_zeros, rankIndices_example, findHintPass1_example]

/-- Witness for the amended C2: at the concrete input of
`findHint_example_eval`, the returned word `"aa"` satisfies every
exclusion. -/
theorem findHint_nonsentinel_exclusions_instance :
    ("aa" ≠ "tt" ∧ "aa" ∉ ([] : List String) ∧ "aa" ∉ ([] : List String)) ∧
    ∀ v ∈ wordsToCheck ⟨"tt", [0, 0], [], [], false⟩,
      ¬ (3 ≤ v.length ∧ jsIncludes "aa" v = true) ∧
      ¬ (3 ≤ "aa".length ∧ jsIncludes v "aa" = true) :=
  findHint_nonsentinel_exclusions ⟨["aa", "bb"], [[0, 0], [0, 0]]⟩ "aa"
    ⟨"tt", [0, 0], [], [], false⟩ "aa" findHint_example_eval (by decide)

/-- Claim C10 (amended/negation): every non-sentinel word returned by
`findHint` — by either pass — sits at a ranked index whose embedding
slot is present, so `getEmbedding` finds an embedding for it; a
vocabulary word with a missing embedding slot can never be returned. -/
theorem findHint_result_has_embedding (pd : PuzzleData) (guess : String)
    (gs : GameState) (w : String)
    (h : findHint pd guess gs = Except.ok w) (hw : w ≠ "unknown") :
    ∃ e, getEmbedding pd w = some e := by
  unfold findHint at h
  cases hge : getEmbedding pd guess with
  | none =>
    rw [hge] at h
    simp only [] at h
    injection h with h'
    exact absurd h'.symm hw
  | some ge =>
    rw [hge] at h
    simp only [] at h
    cases hsc : computeScores ge gs.targetEmbedding pd.hint_embeddings with
    | error e =>
      rw [hsc] at h
      simp only [] at h
      cases h
    | ok scores =>
      rw [hsc] at h
      simp only [] at h
      cases hD : cosineDistance ge gs.targetEmbedding with
      | error e =>
        rw [hD] at h
        simp only [] at h
        cases h
      | ok D =>
        rw [hD] at h
        simp only [] at h
        cases hp1 : findHintPass1 pd gs (gs.guessesHistory.filterMap (getEmbedding pd))
            (0.33 * D) (0.5 * D) (rankIndices scores) with
        | error e =>
          rw [hp1] at h
          simp only [] at h
          cases h
        | ok o =>
          rw [hp1] at h
          cases o with
          | some w' =>
            simp only [] at h
            injection h with h'
            subst h'
            obtain ⟨l₁, idx, l₂, -, -, hacc, hvw⟩ :=
              findHintPass1_some_spec _ _ _ _ _ _ _ hp1
            obtain ⟨hw', he, hv', hemb', hne, -⟩ := hacc
            rw [hvw] at hv'
            injection hv' with e1
            subst e1
            exact getEmbedding_isSome pd w' idx hvw hne ⟨he, hemb'⟩
          | none =>
            simp only [] at h
            cases hp2 : findHintPass2 pd gs (rankIndices scores) with
            | some w' =>
              rw [hp2] at h
              simp only [] at h
              injection h with h'
              subst h'
              obtain ⟨idx, hidx, hv', hne, -⟩ :=
                findHintPass2_some_spec _ _ _ _ hp2
              have hlen : scores.length = pd.hint_embeddings.length := by
                obtain ⟨rfl, -⟩ := computeScores_ok_inv _ _ _ _ hsc
                exact List.length_map _ _
              have hidx' : idx < pd.hint_embeddings.length := by
                rw [← hlen]
                rw [rankIndices] at hidx
                have := List.mem_mergeSort.mp hidx
                exact List.mem_range.mp this
              exact getEmbedding_isSome pd w' idx hv' hne
                ⟨_, List.getElem?_eq_getElem hidx'⟩
            | none =>
              rw [hp2] at h
              simp only [] at h
              injection h with h'
              exact absurd h'.symm hw

/-- Claim C10 as frozen is refuted at a concrete input: in the payload
`⟨["apple", "berry"], [[1]]⟩` the word `"berry"` has no aligned
embedding slot (so `getEmbedding` misses it) and passes every fallback
exclusion for the given state, yet `findHint` returns the sentinel
`"unknown"` rather than `"berry"` — the ranking never reaches an index
without an embedding slot. -/
theorem findHint_missing_slot_not_returned :
    getEmbedding ⟨["apple", "berry"], [[1]]⟩ "berry" = none ∧
    ¬ basicExcluded "berry" ⟨"zzz", [1], ["apple"], [], false⟩ ∧
    ¬ substrExcluded "berry" ⟨"zzz", [1], ["apple"], [], false⟩ ∧
    findHint ⟨["apple", "berry"], [[1]]⟩ "apple" ⟨"zzz", [1], ["apple"], [], false⟩
      = Except.ok "unknown" := by
  refine ⟨by simp [getEmbedding, List.range_succ], by decide, by decide, ?_⟩
  have hge : getEmbedding ⟨["apple", "berry"], [[1]]⟩ "apple" = some [1] := by
    simp [getEmbedding, List.range_succ]
  have hfn : cosineDistanceFn [(1 : ℝ)] [1] = 0 := by
    rw [cosineDistanceFn]
    rw [if_neg]
    · norm_num [dotList, magnitude, sumSq]
    · norm_num [magnitude, sumSq]
  have hcd : cosineDistance [(1 : ℝ)] [1] = Except.ok 0 := by
    rw [cosineDistance]
    norm_num [hfn]
  have hsc : computeScores [(1 : ℝ)] [1] [[1]] = Except.ok [0] := by
    simp only [computeScores, hcd]
    norm_num
  have hrank : rankIndices [(0 : ℝ)] = [0] := by
    simp [rankIndices, List.range_succ]
  have hp1 : findHintPass1 ⟨["apple", "berry"], [[1]]⟩ ⟨"zzz", [1], ["apple"], [], false⟩
      (List.filterMap (getEmbedding ⟨["apple", "berry"], [[1]]⟩) ["apple"])
      (0.33 * 0) (0.5 * 0) [0] = Except.ok none := by
    rw [findHintPass1]
    simp only [List.getElem?_cons_zero]
    rw [if_neg (by decide), if_pos (by decide)]
    rfl
  have hp2 : findHintPass2 ⟨["apple", "berry"], [[1]]⟩ ⟨"zzz", [1], ["apple"], [], false⟩ [0]
      = none := by
    rw [findHintPass2]
    simp only [List.getElem?_cons_zero]
    rw [if_neg (by decide), if_pos (by decide)]
    rfl
  simp only [findHint, hge, hsc, hcd, hrank, hp1, hp2]

/-- Witness for the amended C10 at the input of `findHint_example_eval`:
the returned word `"aa"` has an embedding in the map. -/
theorem findHint_result_has_embedding_instance :
    ∃ e, getEmbedding ⟨["aa", "bb"], [[0, 0], [0, 0]]⟩ "aa" = some e :=
  findHint_result_has_embedding ⟨["aa", "bb"], [[0, 0], [0, 0]]⟩ "aa"
    ⟨"tt", [0, 0], [], [], false⟩ "aa" findHint_example_eval (by decide)

/-- Members of the filtered guess-embedding list are table entries. -/
theorem mem_allGE_mem_embeddings (pd : PuzzleData) (hist : List String)
    (g : List ℝ) (hg : g ∈ hist.filterMap (getEmbedding pd)) :
    g ∈ pd.hint_embeddings := by
  obtain ⟨a, -, ha⟩ := List.mem_filterMap.mp hg
  exact getEmbedding_mem_embeddings pd a g ha

/-- Claim C3: under the data-model invariant that every table embedding
and the target embedding share one dimension, whenever some table index
is acceptable to the constrained pass (identity/history/substring
exclusions plus both distance thresholds, with `D` the guess-to-target
distance), `findHint` succeeds through the constrained pass — the
fallback is not entered — and returns a word that is acceptable at some
index, hence satisfies all the distance constraints. -/
theorem findHint_constrained_complete (pd : PuzzleData) (guess : String)
    (gs : GameState) (dim : ℕ)
    (hdim : ∀ e ∈ pd.hint_embeddings, e.length = dim)
    (htg : gs.targetEmbedding.length = dim)
    (ge : List ℝ) (hge : getEmbedding pd guess = some ge)
    (hex : ∃ idx, pass1Accept pd gs (gs.guessesHistory.filterMap (getEmbedding pd))
      (0.33 * cosineDistanceFn ge gs.targetEmbedding)
      (0.5 * cosineDistanceFn ge gs.targetEmbedding) idx) :
    ∃ w scoresList,
      computeScores ge gs.targetEmbedding pd.hint_embeddings = Except.ok scoresList ∧
      findHintPass1 pd gs (gs.guessesHistory.filterMap (getEmbedding pd))
        (0.33 * cosineDistanceFn ge gs.targetEmbedding)
        (0.5 * cosineDistanceFn ge gs.targetEmbedding)
        (rankIndices scoresList) = Except.ok (some w) ∧
      findHint pd guess gs = Except.ok w ∧
      ∃ idx, pass1Accept pd gs (gs.guessesHistory.filterMap (getEmbedding pd))
        (0.33 * cosineDistanceFn ge gs.targetEmbedding)
        (0.5 * cosineDistanceFn ge gs.targetEmbedding) idx ∧
        pd.hint_vocabulary[idx]? = some w := by
  have hgelen : ge.length = dim := hdim ge (getEmbedding_mem_embeddings pd guess ge hge)
  have hsc : computeScores ge gs.targetEmbedding pd.hint_embeddings
      = Except.ok (pd.hint_embeddings.map fun he =>
          cosineDistanceFn ge he + cosineDistanceFn gs.targetEmbedding he) := by
    refine computeScores_ok _ _ _ ?_
    intro he hhe
    rw [hdim he hhe, hgelen, htg]
    exact ⟨rfl, rfl⟩
  have hD : cosineDistance ge gs.targetEmbedding
      = Except.ok (cosineDistanceFn ge gs.targetEmbedding) := by
    rw [cosineDistance, if_neg]
    rw [hgelen, htg]
    simp
  have hclean : ∀ idx ∈ rankIndices (pd.hint_embeddings.map fun he =>
        cosineDistanceFn ge he + cosineDistanceFn gs.targetEmbedding he),
      ∀ he, pd.hint_embeddings[idx]? = some he →
      gs.targetEmbedding.length = he.length ∧
      ∀ g ∈ gs.guessesHistory.filterMap (getEmbedding pd), g.length = he.length := by
    intro idx _ he hemb
    have hhe : he ∈ pd.hint_embeddings := List.getElem?_mem hemb
    constructor
    · rw [hdim he hhe, htg]
    · intro g hg
      rw [hdim he hhe, hdim g (mem_allGE_mem_embeddings pd _ g hg)]
  obtain ⟨o, ho⟩ := findHintPass1_no_error pd gs
    (gs.guessesHistory.filterMap (getEmbedding pd))
    (0.33 * cosineDistanceFn ge gs.targetEmbedding)
    (0.5 * cosineDistanceFn ge gs.targetEmbedding) _ hclean
  cases o with
  | none =>
    exfalso
    obtain ⟨idx, hacc⟩ := hex
    refine findHintPass1_none_spec _ _ _ _ _ _ ho idx ?_ hacc
    obtain ⟨hw, he, -, hemb, -⟩ := hacc
    have hidx : idx < pd.hint_embeddings.length := by
      obtain ⟨hlt, -⟩ := List.getElem?_eq_some_iff.mp hemb
      exact hlt
    rw [rankIndices, List.mem_mergeSort, List.mem_range, List.length_map]
    exact hidx
  | some w =>
    refine ⟨w, _, hsc, ho, ?_, ?_⟩
    · simp only [findHint, hge]
      rw [hsc]
      simp only []
      rw [hD]
      simp only []
      rw [ho]
    · obtain ⟨l₁, idx, l₂, -, -, hacc, hvw⟩ :=
        findHintPass1_some_spec _ _ _ _ _ _ _ ho
      exact ⟨idx, hacc, hvw⟩

/-- Witness for C3: at the concrete input of `findHint_example_eval`,
index `0` is acceptable and `findHint` indeed returns through the
constrained pass. -/
theorem findHint_constrained_complete_instance :
    ∃ w, findHint ⟨["aa", "bb"], [[0, 0], [0, 0]]⟩ "aa"
        ⟨"tt", [0, 0], [], [], false⟩ = Except.ok w := by
  have hex : ∃ idx, pass1Accept ⟨["aa", "bb"], [[0, 0], [0, 0]]⟩
      ⟨"tt", [0, 0], [], [], false⟩
      (List.filterMap (getEmbedding ⟨["aa", "bb"], [[0, 0], [0, 0]]⟩) [])
      (0.33 * cosineDistanceFn [0, 0] [0, 0])
      (0.5 * cosineDistanceFn [0, 0] [0, 0]) idx := by
    refine ⟨0, "aa", [0, 0], rfl, rfl, by decide, by decide, by decide, rfl, ?_, ?_, ?_⟩
    · intro g hg
      simp at hg
    · rw [cosineDistanceFn_zeros]
      norm_num [cosineDistanceFn_zeros]
    · intro g hg
      simp at hg
  obtain ⟨w, -, -, -, hw, -⟩ := findHint_constrained_complete
    ⟨["aa", "bb"], [[0, 0], [0, 0]]⟩ "aa" ⟨"tt", [0, 0], [], [], false⟩ 2
    (by norm_num) rfl [0, 0] getEmbedding_example hex
  exact ⟨w, hw⟩

theorem pair_sublist_range {a b n : ℕ} (hab : a < b) (hbn : b < n) :
    List.Sublist [a, b] (List.range n) := by
  induction n with
  | zero => omega
  | succ n ih =>
    rw [List.range_succ]
    by_cases hb : b = n
    · subst hb
      have ha : List.Sublist [a] (List.range b) := List.singleton_sublist.mpr (List.mem_range.mpr hab)
      exact List.Sublist.append ha (List.Sublist.refl [b])
    · exact (ih (by omega)).trans (List.sublist_append_left _ _)

theorem pair_sublist_both_eq {a b : ℕ} :
    ∀ {L : List ℕ}, L.Nodup → List.Sublist [a, b] L → List.Sublist [b, a] L → a = b := by
  intro L
  induction L with
  | nil => intro _ hab _; cases hab
  | cons c rest ih =>
    intro hnd hab hba
    obtain ⟨hc, hnd'⟩ := List.nodup_cons.mp hnd
    cases hab with
    | cons _ h =>
      cases hba with
      | cons _ h' => exact ih hnd' h h'
      | cons₂ h' =>
        exact absurd (h.subset (by simp)) hc
    | cons₂ h =>
      cases hba with
      | cons _ h' =>
        exact absurd (h'.subset (by simp)) hc
      | cons₂ h' => rfl

theorem rankIndices_perm (s : List ℝ) :
    (rankIndices s).Perm (List.range s.length) :=
  List.mergeSort_perm _ _

theorem rankIndices_nodup (s : List ℝ) : (rankIndices s).Nodup :=
  ((rankIndices_perm s).nodup_iff).mpr (List.nodup_range _)

/-- The ranking produced by `rankIndices` is strictly ordered by the
lexicographic pair (score, original index): the stable sort puts
smaller scores first and breaks ties by table order. -/
theorem rankIndices_pairwise_lex (s : List ℝ) :
    (rankIndices s).Pairwise fun i j =>
      s.getD i 0 < s.getD j 0 ∨ (s.getD i 0 = s.getD j 0 ∧ i < j) := by
  have trans : ∀ (a b c : ℕ),
      decide (s.getD a 0 ≤ s.getD b 0) = true →
      decide (s.getD b 0 ≤ s.getD c 0) = true →
      decide (s.getD a 0 ≤ s.getD c 0) = true := by
    intro a b c hab hbc
    rw [decide_eq_true_eq] at hab hbc ⊢
    exact le_trans hab hbc
  have total : ∀ (a b : ℕ),
      (decide (s.getD a 0 ≤ s.getD b 0) || decide (s.getD b 0 ≤ s.getD a 0)) = true := by
    intro a b
    rw [Bool.or_eq_true, decide_eq_true_eq, decide_eq_true_eq]
    exact le_total _ _
  have hsorted : (rankIndices s).Pairwise
      fun a b => decide (s.getD a 0 ≤ s.getD b 0) = true := by
    rw [rankIndices]
    exact List.sorted_mergeSort trans total (List.range s.length)
  have hnodup := rankIndices_nodup s
  rw [List.pairwise_iff_forall_sublist]
  intro a b hab
  have hle : s.getD a 0 ≤ s.getD b 0 :=
    decide_eq_true_eq.mp (List.pairwise_iff_forall_sublist.mp hsorted hab)
  have hne : a ≠ b := by
    rintro rfl
    exact (List.nodup_iff_sublist.mp hnodup a) hab
  rcases lt_or_eq_of_le hle with hlt | heq
  · exact Or.inl hlt
  · refine Or.inr ⟨heq, ?_⟩
    rcases Nat.lt_or_ge a b with hx | hx
    · exact hx
    · exfalso
      have hba : b < a := lt_of_le_of_ne hx (Ne.symm hne)
      have han : a < s.length := by
        have ha : a ∈ rankIndices s := hab.subset (by simp)
        rw [rankIndices] at ha
        exact List.mem_range.mp (List.mem_mergeSort.mp ha)
      have hsub : List.Sublist [b, a] (List.range s.length) := pair_sublist_range hba han
      have hba' : List.Sublist [b, a] (rankIndices s) := by
        rw [rankIndices]
        refine List.pair_sublist_mergeSort trans total ?_ hsub
        rw [decide_eq_true_eq]
        exact le_of_eq heq.symm
      exact hne (pair_sublist_both_eq hnodup hab hba')

/-- Claim C4: `findHint` ranks all score indices by ascending
collinearity score (distance to guess plus distance to target, per
table entry) with the stable tie-break preserving table order; when the
constrained pass returns a word, that word sits at an acceptable index
that is lexicographically minimal — any other acceptable index has a
strictly larger score, or an equal score and a later table position. -/
theorem findHint_ranking_minimal (pd : PuzzleData) (guess : String)
    (gs : GameState) (ge scoresList : List ℝ) (w : String)
    (hge : getEmbedding pd guess = some ge)
    (hsc : computeScores ge gs.targetEmbedding pd.hint_embeddings = Except.ok scoresList)
    (hlen : ge.length = gs.targetEmbedding.length)
    (hp1 : findHintPass1 pd gs (gs.guessesHistory.filterMap (getEmbedding pd))
      (0.33 * cosineDistanceFn ge gs.targetEmbedding)
      (0.5 * cosineDistanceFn ge gs.targetEmbedding) (rankIndices scoresList)
      = Except.ok (some w)) :
    (rankIndices scoresList).Perm (List.range scoresList.length) ∧
    (rankIndices scoresList).Pairwise (fun i j =>
      scoresList.getD i 0 < scoresList.getD j 0 ∨
      (scoresList.getD i 0 = scoresList.getD j 0 ∧ i < j)) ∧
    (∀ (i : ℕ) (he : List ℝ), pd.hint_embeddings[i]? = some he →
      scoresList[i]? = some (cosineDistanceFn ge he
        + cosineDistanceFn gs.targetEmbedding he)) ∧
    findHint pd guess gs = Except.ok w ∧
    ∃ idx, pass1Accept pd gs (gs.guessesHistory.filterMap (getEmbedding pd))
        (0.33 * cosineDistanceFn ge gs.targetEmbedding)
        (0.5 * cosineDistanceFn ge gs.targetEmbedding) idx ∧
      pd.hint_vocabulary[idx]? = some w ∧
      ∀ j, pass1Accept pd gs (gs.guessesHistory.filterMap (getEmbedding pd))
          (0.33 * cosineDistanceFn ge gs.targetEmbedding)
          (0.5 * cosineDistanceFn ge gs.targetEmbedding) j →
        scoresList.getD idx 0 < scoresList.getD j 0 ∨
        (scoresList.getD idx 0 = scoresList.getD j 0 ∧ idx ≤ j) := by
  refine ⟨rankIndices_perm _, rankIndices_pairwise_lex _, ?_, ?_, ?_⟩
  · intro i he hemb
    obtain ⟨rfl, -⟩ := computeScores_ok_inv _ _ _ _ hsc
    rw [List.getElem?_map, hemb]
    rfl
  · have hD : cosineDistance ge gs.targetEmbedding
        = Except.ok (cosineDistanceFn ge gs.targetEmbedding) := by
      rw [cosineDistance, if_neg]
      simp [hlen]
    simp only [findHint, hge]
    rw [hsc]
    simp only []
    rw [hD]
    simp only []
    rw [hp1]
  · obtain ⟨l₁, idx, l₂, heq, hskip, hacc, hvw⟩ :=
      findHintPass1_some_spec _ _ _ _ _ _ _ hp1
    refine ⟨idx, hacc, hvw, ?_⟩
    intro j haccj
    have hjmem : j ∈ rankIndices scoresList := by
      obtain ⟨hw', he', -, hemb', -⟩ := haccj
      have hjlt : j < pd.hint_embeddings.length :=
        (List.getElem?_eq_some_iff.mp hemb').1
      rw [rankIndices, List.mem_mergeSort, List.mem_range]
      obtain ⟨rfl, -⟩ := computeScores_ok_inv _ _ _ _ hsc
      rw [List.length_map]
      exact hjlt
    rw [heq] at hjmem
    rcases List.mem_append.mp hjmem with hj | hj
    · exact absurd haccj (hskip j hj)
    · rcases List.mem_cons.mp hj with rfl | hj
      · exact Or.inr ⟨rfl, le_refl _⟩
      · have hsub : List.Sublist [idx, j] (rankIndices scoresList) := by
          rw [heq]
          have h1 : List.Sublist [idx, j] (idx :: l₂) :=
            List.Sublist.cons₂ idx (List.singleton_sublist.mpr hj)
          exact h1.trans (List.sublist_append_right l₁ (idx :: l₂))
        have hlex := List.pairwise_iff_forall_sublist.mp
          (rankIndices_pairwise_lex scoresList) hsub
        rcases hlex with h | ⟨h1, h2⟩
        · exact Or.inl h
        · exact Or.inr ⟨h1, le_of_lt h2⟩

/-- Witness for C4 at the concrete input of `findHint_example_eval`. -/
theorem findHint_ranking_minimal_instance :
    findHint ⟨["aa", "bb"], [[0, 0], [0, 0]]⟩ "aa" ⟨"tt", [0, 0], [], [], false⟩
      = Except.ok "aa" ∧
    (rankIndices [(2 : ℝ), 2]).Perm (List.range (List.length [(2 : ℝ), 2])) := by
  have h := findHint_ranking_minimal ⟨["aa", "bb"], [[0, 0], [0, 0]]⟩ "aa"
    ⟨"tt", [0, 0], [], [], false⟩ [0, 0] [2, 2] "aa" getEmbedding_example
    computeScores_example rfl
    (by rw [cosineDistanceFn_zeros, rankIndices_example]; exact findHintPass1_example)
  exact ⟨h.2.2.2.1, h.1⟩

theorem dotList_comm (a : List ℝ) : ∀ b, dotList a b = dotList b a := by
  induction a with
  | nil => intro b; cases b <;> simp [dotList]
  | cons x a ih =>
    intro b
    cases b with
    | nil => simp [dotList]
    | cons y b =>
      simp only [dotList, List.zip_cons_cons, List.map_cons, List.sum_cons] at *
      rw [mul_comm, ih b]

theorem dotList_self (a : List ℝ) : dotList a a = sumSq a := by
  induction a with
  | nil => simp [dotList, sumSq]
  | cons x a ih =>
    simp only [dotList, sumSq, List.zip_cons_cons, List.map_cons, List.sum_cons] at *
    rw [ih]

theorem sumSq_fst_zip : ∀ (a b : List ℝ), a.length = b.length →
    ((a.zip b).map fun p => p.1 * p.1).sum = sumSq a := by
  intro a
  induction a with
  | nil => intro b h; simp [sumSq]
  | cons x a ih =>
    intro b h
    cases b with
    | nil => simp at h
    | cons y b =>
      have h' : a.length = b.length := by simpa using h
      simp only [List.zip_cons_cons, List.map_cons, List.sum_cons]
      rw [ih b h']
      simp [sumSq]

theorem sumSq_snd_zip : ∀ (a b : List ℝ), a.length = b.length →
    ((a.zip b).map fun p => p.2 * p.2).sum = sumSq b := by
  intro a
  induction a with
  | nil =>
    intro b h
    cases b with
    | nil => simp [sumSq]
    | cons y b => simp at h
  | cons x a ih =>
    intro b h
    cases b with
    | nil => simp at h
    | cons y b =>
      have h' : a.length = b.length := by simpa using h
      simp only [List.zip_cons_cons, List.map_cons, List.sum_cons]
      rw [ih b h']
      simp [sumSq]

theorem sum_map_mul_self_nonneg (l : List (ℝ × ℝ)) :
    0 ≤ (l.map fun p => p.1 * p.1).sum := by
  apply List.sum_nonneg
  intro x hx
  obtain ⟨p, -, rfl⟩ := List.mem_map.mp hx
  exact mul_self_nonneg _

theorem sum_map_mul_self_snd_nonneg (l : List (ℝ × ℝ)) :
    0 ≤ (l.map fun p => p.2 * p.2).sum := by
  apply List.sum_nonneg
  intro x hx
  obtain ⟨p, -, rfl⟩ := List.mem_map.mp hx
  exact mul_self_nonneg _

/-- Cauchy-Schwarz for a zipped list of coordinate pairs, squared form. -/
theorem cs_zip : ∀ l : List (ℝ × ℝ),
    ((l.map fun p => p.1 * p.2).sum) ^ 2 ≤
      ((l.map fun p => p.1 * p.1).sum) * ((l.map fun p => p.2 * p.2).sum) := by
  intro l
  induction l with
  | nil => simp
  | cons p l ih =>
    obtain ⟨x, y⟩ := p
    simp only [List.map_cons, List.sum_cons]
    have hA := sum_map_mul_self_nonneg l
    have hB := sum_map_mul_self_snd_nonneg l
    set d := (l.map fun p => p.1 * p.2).sum with hd_def
    set A := (l.map fun p => p.1 * p.1).sum with hA_def
    set B := (l.map fun p => p.2 * p.2).sum with hB_def
    rcases eq_or_lt_of_le hB with hB0 | hBpos
    · have hd2 : d ^ 2 ≤ 0 := by
        have h1 : d ^ 2 ≤ A * B := ih
        rw [← hB0, mul_zero] at h1
        exact h1
      have hd0 : d = 0 := pow_eq_zero_iff two_ne_zero |>.mp
        (le_antisymm hd2 (sq_nonneg d))
      rw [hd0, ← hB0]
      nlinarith [mul_nonneg hA (sq_nonneg y)]
    · nlinarith [sq_nonneg (x * B - y * d),
        mul_nonneg (sub_nonneg.mpr ih) (sq_nonneg y),
        mul_nonneg (sub_nonneg.mpr ih) hB, hBpos, ih]

/-- The dot product is bounded by the product of magnitudes. -/
theorem abs_dotList_le (a b : List ℝ) (h : a.length = b.length) :
    |dotList a b| ≤ magnitude a * magnitude b := by
  have hcs := cs_zip (a.zip b)
  rw [sumSq_fst_zip a b h, sumSq_snd_zip a b h] at hcs
  have h1 : |dotList a b| = Real.sqrt ((dotList a b) ^ 2) :=
    (Real.sqrt_sq_eq_abs _).symm
  rw [h1, magnitude, magnitude, ← Real.sqrt_mul (sumSq_nonneg a)]
  exact Real.sqrt_le_sqrt hcs

theorem cosineDistanceFn_comm (a b : List ℝ) :
    cosineDistanceFn a b = cosineDistanceFn b a := by
  unfold cosineDistanceFn
  by_cases hz : magnitude a = 0 ∨ magnitude b = 0
  · rw [if_pos hz, if_pos hz.symm]
  · rw [if_neg hz, if_neg fun hc => hz hc.symm]
    rw [dotList_comm, mul_comm]

/-- Claim C8 (amended): for equal-length vectors the distance is
symmetric and always lies in `[0, 2]`; `cosineDistance(a, a)` is exactly
`0` whenever `a` has nonzero magnitude (a zero-magnitude `a` yields `1`
by the zero-vector rule, refuting the unrestricted `≈ 0` claim). -/
theorem cosineDistance_symm_range_self (a b : List ℝ) (h : a.length = b.length) :
    cosineDistance a b = cosineDistance b a ∧
    (∀ r, cosineDistance a b = Except.ok r → 0 ≤ r ∧ r ≤ 2) ∧
    (sumSq a ≠ 0 → cosineDistance a a = Except.ok 0) := by
  refine ⟨?_, ?_, ?_⟩
  · rw [cosineDistance, cosineDistance, if_neg (by simp [h]), if_neg (by simp [h]),
      cosineDistanceFn_comm]
  · intro r hr
    rw [cosineDistance, if_neg (by simp [h])] at hr
    injection hr with hr
    subst hr
    unfold cosineDistanceFn
    by_cases hz : magnitude a = 0 ∨ magnitude b = 0
    · rw [if_pos hz]
      norm_num
    · rw [if_neg hz]
      push_neg at hz
      have hA : 0 < magnitude a := lt_of_le_of_ne (magnitude_nonneg a) (Ne.symm hz.1)
      have hB : 0 < magnitude b := lt_of_le_of_ne (magnitude_nonneg b) (Ne.symm hz.2)
      have habs := abs_dotList_le a b h
      have hprod : 0 < magnitude a * magnitude b := mul_pos hA hB
      constructor
      · have hub : dotList a b ≤ magnitude a * magnitude b :=
          le_trans (le_abs_self _) habs
        have := (div_le_one hprod).mpr hub
        linarith
      · have hlb : -(magnitude a * magnitude b) ≤ dotList a b := by
          have := neg_abs_le (dotList a b)
          linarith
        have hdiv : -1 ≤ dotList a b / (magnitude a * magnitude b) := by
          rw [le_div_iff₀ hprod]
          linarith
        linarith
  · intro hA0
    rw [cosineDistance, if_neg (by simp)]
    unfold cosineDistanceFn
    rw [if_neg, dotList_self]
    · rw [show magnitude a * magnitude a = sumSq a from Real.mul_self_sqrt (sumSq_nonneg a)]
      rw [div_self hA0]
      norm_num
    · rw [magnitude_eq_zero_iff]
      rintro (hc | hc) <;> exact hA0 hc

/-- Claim C8 as frozen is refuted at the zero vector: the distance from
`[0]` to itself is exactly `1`, not approximately `0`. -/
theorem cosineDistance_self_zero_vector :
    cosineDistance [(0 : ℝ)] [0] = Except.ok 1 ∧ (1 : ℝ) ≠ 0 := by
  constructor
  · rw [cosineDistance, if_neg (by simp), cosineDistanceFn, if_pos]
    left
    rw [magnitude_eq_zero_iff]
    norm_num [sumSq]
  · norm_num

/-- Witness for the amended C8 at concrete vectors. -/
theorem cosineDistance_symm_range_self_instance :
    cosineDistance [(3 : ℝ)] [4] = cosineDistance [(4 : ℝ)] [3] ∧
    cosineDistance [(3 : ℝ)] [3] = Except.ok 0 :=
  ⟨(cosineDistance_symm_range_self [(3 : ℝ)] [4] rfl).1,
   (cosineDistance_symm_range_self [(3 : ℝ)] [3] rfl).2.2 (by norm_num [sumSq])⟩
